import Mathlib

/-!
Verification of the RRG_TDV analytics engine against its specification.

The development is a shallow embedding of the numeric core of the
repository:

* `rrg_bundle/rrg/rrg_calc.py` — quadrant classification, the EMA RRG
  model, the rolling 3-month-high / 52-week-high / 52-week-low reference
  maps and the three window RRG models built on them;
* `rrg_bundle/rrg/cache.py` — the TTL-gated disk cache;
* `rrg_bundle/app.py` — the per-symbol fetch (retry / fallback) loop, the
  EMA-model bundle step with its adaptive length clamping, and the
  new-high / new-low breadth flags;
* `stock_volume_alert/volume_alert/metrics.py` — trailing volume averages.

Modelling conventions, used throughout:

* prices and volumes are rationals (`ℚ`): the source computes with IEEE
  doubles, and every verified statement here is about the structure of the
  computation (which rows exist, which entries are undefined, which bars
  a window may touch), not about rounding;
* a value that the source would hold as NaN (and later drop with
  `dropna`) is an `Option` `none`;
* `speed` and `distance` are represented by their squares (`speed_sq`,
  `distance_sq`): the source stores `sqrt(dx^2 + dy^2)`, which leaves `ℚ`;
  the square root is strictly monotone on nonnegatives, so every
  statement about them transfers;
* `angle_deg` (an `atan2`, transcendental) is omitted: no claim concerns
  it;
* daily timestamps are integers (day numbers, with day `0` a Monday, so
  that `weekday = t % 7` as in Python); timestamps for the month-bucketed
  reference are `MDate` (an absolute month index plus a day-of-month),
  ordered lexicographically, which is exactly how `pandas` compares
  day-granular timestamps.
-/

namespace RRGTDV

/-! ## Quadrant classification (`rrg_calc._quadrant`) -/

/-- The four RRG quadrants, `rrg_calc.Quadrant`. -/
inductive Quadrant where
  | Leading
  | Weakening
  | Lagging
  | Improving
deriving DecidableEq, Repr

/-- Embedding of `rrg_calc._quadrant`: the cascade of `>=`/`<` tests on
`rs_ratio` and `rs_mom` against the 100 centre. -/
def quadrant (rs_ratio rs_mom : ℚ) : Quadrant :=
  if 100 ≤ rs_ratio ∧ 100 ≤ rs_mom then .Leading
  else if 100 ≤ rs_ratio ∧ rs_mom < 100 then .Weakening
  else if rs_ratio < 100 ∧ rs_mom < 100 then .Lagging
  else .Improving

/-! ## Disk cache (`rrg_bundle/rrg/cache.py`) -/

/-- Embedding of `cache.CachePayload`: what `set_df` pickles to disk. -/
structure CachePayload (D : Type) where
  fetched_at : ℚ
  df : D
deriving DecidableEq

/-- The cache directory, as the store `DiskCache` works against: one entry
per file path.  A file whose pickled content does not deserialize to a
payload (a corrupt file — `pickle.load` raises) is `none`. -/
def FileSys (D : Type) : Type := List (String × Option (CachePayload D))

/-- First-match lookup of a path in the directory; models the filesystem
read (`os.path.exists` + `open`). -/
def lookupFile {D : Type} : FileSys D → String → Option (Option (CachePayload D))
  | [], _ => none
  | (p, c) :: rest, path => if p = path then some c else lookupFile rest path

/-- Embedding of `DiskCache._path_for_key`'s sanitization.  The source
chains `str.replace` over the single characters `:` `|` `/` `\` `?` `*`
(with `|` becoming `__`); since none of the replacement texts contains a
character that a later step replaces, the chain equals this single
character-by-character pass. -/
def sanitizeChar (c : Char) : String :=
  if c = ':' then "_"
  else if c = '|' then "__"
  else if c = '/' then "_"
  else if c = '\\' then "_"
  else if c = '?' then "_"
  else if c = '*' then "_"
  else String.singleton c

/-- Embedding of `DiskCache._path_for_key`: `os.path.join(base_dir, safe + ".pkl")`. -/
def path_for_key (base_dir key : String) : String :=
  base_dir ++ "/" ++ String.join (key.data.map sanitizeChar) ++ ".pkl"

/-- Embedding of `DiskCache.get_df`.  `none` is the cache miss: missing
file, corrupt payload, or an entry older than `ttl_seconds`; every failure
mode is swallowed (the source wraps the read in `try/except`), so the
function is total. -/
def get_df {D : Type} (fs : FileSys D) (base_dir key : String) (ttl_seconds now : ℚ) : Option D :=
  match lookupFile fs (path_for_key base_dir key) with
  | none => none
  | some none => none
  | some (some payload) =>
      if now - payload.fetched_at > ttl_seconds then none else some payload.df

/-- Embedding of `DiskCache.set_df`: overwrite the key's file with a fresh
payload stamped `fetched_at = now`.  The new entry is prepended;
`lookupFile` takes the first match, so this is the overwrite. -/
def set_df {D : Type} (fs : FileSys D) (base_dir key : String) (df : D) (now : ℚ) : FileSys D :=
  (path_for_key base_dir key, some ⟨now, df⟩) :: fs

/-! ## Theorems: quadrant boundaries (C2) and the cache (C6, C10) -/

/-- C2: for every RRG row the quadrant is Leading iff `rs_ratio >= 100` and
`rs_mom >= 100`, Weakening iff `rs_ratio >= 100` and `rs_mom < 100`,
Lagging iff both are `< 100`, and Improving otherwise; at the boundary,
`quadrant 100 100 = Leading`, `quadrant 100 99.999 = Weakening`,
`quadrant 99.999 99.999 = Lagging`, `quadrant 99.999 100 = Improving`
(the comparison against 100 is inclusive on the `>= 100` side). -/
theorem quadrant_boundary_spec : ∀ x y : ℚ,
    ((quadrant x y = .Leading ↔ 100 ≤ x ∧ 100 ≤ y)
      ∧ (quadrant x y = .Weakening ↔ 100 ≤ x ∧ y < 100)
      ∧ (quadrant x y = .Lagging ↔ x < 100 ∧ y < 100)
      ∧ (quadrant x y = .Improving ↔ x < 100 ∧ 100 ≤ y))
    ∧ quadrant 100 100 = .Leading
    ∧ quadrant 100 (99999/1000) = .Weakening
    ∧ quadrant (99999/1000) (99999/1000) = .Lagging
    ∧ quadrant (99999/1000) 100 = .Improving := by
  intro x y
  refine ⟨?_, by norm_num [quadrant], by norm_num [quadrant], by norm_num [quadrant],
    by norm_num [quadrant]⟩
  rcases lt_or_le x 100 with hx | hx <;> rcases lt_or_le y 100 with hy | hy <;>
    simp [quadrant, hx, hy, not_le_of_lt, le_of_lt, hx.not_lt, hy.not_lt]

/-- C6: `DiskCache.get_df` returns a miss (`none`) — and, being total,
never raises — when the payload file does not exist, when the payload does
not deserialize, and when `now - fetched_at > ttl_seconds`; a `set_df`
followed immediately by a `get_df` with any nonnegative TTL returns
exactly the stored table, while with `ttl = 0` any positive delay turns
the entry back into a miss. -/
theorem diskcache_get_set_spec :
    ∀ (D : Type) (fs : FileSys D) (base_dir key : String) (ttl now later : ℚ) (df : D),
    (lookupFile fs (path_for_key base_dir key) = none →
        get_df fs base_dir key ttl now = none)
    ∧ (lookupFile fs (path_for_key base_dir key) = some none →
        get_df fs base_dir key ttl now = none)
    ∧ (∀ p : CachePayload D,
        lookupFile fs (path_for_key base_dir key) = some (some p) →
        now - p.fetched_at > ttl →
        get_df fs base_dir key ttl now = none)
    ∧ (0 ≤ ttl →
        get_df (set_df fs base_dir key df now) base_dir key ttl now = some df)
    ∧ (0 < later - now →
        get_df (set_df fs base_dir key df now) base_dir key 0 later = none) := by
  intro D fs base_dir key ttl now later df
  refine ⟨fun h => ?_, fun h => ?_, fun p h hexp => ?_, fun httl => ?_, fun hlater => ?_⟩
  · simp [get_df, h]
  · simp [get_df, h]
  · simp [get_df, h, hexp]
  · have h4 : ¬ ((0 : ℚ) > ttl) := not_lt.mpr httl
    simp [get_df, set_df, lookupFile, sub_self, h4]
  · simp [get_df, set_df, lookupFile, hlater]

/-- C10: the key sanitization of `DiskCache._path_for_key` is not
injective: the distinct keys `A|B` and `A__B` (and likewise `A:B` and
`A_B`) map to the same file path, so a `set_df` under one key overwrites
the other's payload and a `get_df` under either key returns the table
stored last under either. -/
theorem diskcache_key_collision :
    ("A|B" ≠ "A__B" ∧ path_for_key ".cache" "A|B" = path_for_key ".cache" "A__B")
    ∧ ("A:B" ≠ "A_B" ∧ path_for_key ".cache" "A:B" = path_for_key ".cache" "A_B")
    ∧ get_df (set_df (set_df ([] : FileSys ℚ) ".cache" "A|B" 1 0) ".cache" "A__B" 2 0)
        ".cache" "A|B" 100 0 = some 2
    ∧ get_df (set_df (set_df ([] : FileSys ℚ) ".cache" "A|B" 1 0) ".cache" "A__B" 2 0)
        ".cache" "A__B" 100 0 = some 2 := by
  have hp : path_for_key ".cache" "A__B" = path_for_key ".cache" "A|B" := by decide
  refine ⟨⟨by decide, rfl⟩, ⟨by decide, rfl⟩, ?_, ?_⟩
  · simp only [get_df, set_df, lookupFile, hp, if_pos rfl]
    norm_num
  · simp only [get_df, set_df, lookupFile, if_pos rfl]
    norm_num

/-! ## Month buckets and the rolling 3-month-high reference
(`rrg_calc._month_start`, `rrg_calc._three_month_high_by_month_start`) -/

/-- A day-granular timestamp for the month-bucketed reference: an absolute
month index (`year * 12 + month`, any zero point) and a day of month.
`pandas` compares day-granular timestamps chronologically, which is the
lexicographic order on this pair. -/
structure MDate where
  month : ℤ
  day : ℤ
deriving DecidableEq, Repr

/-- Chronological `<=` on `MDate` (lexicographic). -/
def mdateLE (a b : MDate) : Prop :=
  a.month < b.month ∨ (a.month = b.month ∧ a.day ≤ b.day)

/-- Chronological `<` on `MDate` (lexicographic). -/
def mdateLT (a b : MDate) : Prop :=
  a.month < b.month ∨ (a.month = b.month ∧ a.day < b.day)

instance (a b : MDate) : Decidable (mdateLE a b) := by unfold mdateLE; infer_instance

instance (a b : MDate) : Decidable (mdateLT a b) := by unfold mdateLT; infer_instance

/-- Embedding of `rrg_calc._month_start`: `ts.replace(day=1, ...)`, the
first calendar day of the timestamp's month. -/
def monthStart (t : MDate) : MDate :=
  ⟨t.month, 1⟩

/-- The window start `ms - pd.DateOffset(months=3)`.  `ms` is always a
month start (day 1), so the offset only moves the month index. -/
def threeMonthsBefore (ms : MDate) : MDate :=
  ⟨ms.month - 3, ms.day⟩

/-- Membership of a bar's timestamp in the window `[M - 3 months, M)` of a
month-start bucket `M`: the mask
`(high.index >= window_start) & (high.index < window_end)`. -/
def inThreeMonthWindow (ms t : MDate) : Prop :=
  mdateLE (threeMonthsBefore ms) t ∧ mdateLT t ms

instance (ms t : MDate) : Decidable (inThreeMonthWindow ms t) := by
  unfold inThreeMonthWindow; infer_instance

/-- The month-start buckets present in a series:
`high.index.to_period("M").to_timestamp().unique()` (first-seen order,
which no lookup depends on). -/
def monthStartsOf (high : List (MDate × ℚ)) : List MDate :=
  (high.map fun b => monthStart b.1).dedup

/-- Embedding of `rrg_calc._three_month_high_by_month_start`: for every
month-start bucket of the series, the max of `high` over
`[ms - 3 months, ms)`; a bucket with an empty window gets no entry
(`if w.empty: continue`).  The source's `dropna` is folded into the `ℚ`
values and its `sort_index` is dropped: the window filter and its maximum
do not depend on the order of the bars. -/
def threeMonthHighByMonthStart (high : List (MDate × ℚ)) : List (MDate × ℚ) :=
  (monthStartsOf high).filterMap fun ms =>
    (((high.filter fun b => decide (inThreeMonthWindow (monthStart ms) b.1)).map Prod.snd).max?).map
      fun v => (monthStart ms, v)

/-- Dictionary read `d.get(key, nan)` over the association lists built by
the reference maps; `none` is the NaN. -/
def lookupKey {κ : Type} [DecidableEq κ] : List (κ × ℚ) → κ → Option ℚ
  | [], _ => none
  | (k, v) :: rest, key => if k = key then some v else lookupKey rest key

theorem monthStart_mem_monthStartsOf {high : List (MDate × ℚ)} {x : MDate}
    (hx : x ∈ monthStartsOf high) : monthStart x = x := by
  rcases List.mem_dedup.mp hx with hmap
  rcases List.mem_map.mp hmap with ⟨b, _, rfl⟩
  rfl

theorem lookupKey_bucket_map_of_not_mem (high : List (MDate × ℚ)) (L : List MDate)
    (hms : ∀ x ∈ L, monthStart x = x) (M : MDate) (hM : M ∉ L) :
    lookupKey
      (L.filterMap fun ms =>
        (((high.filter fun b => decide (inThreeMonthWindow (monthStart ms) b.1)).map
            Prod.snd).max?).map fun v => (monthStart ms, v)) M = none := by
  induction L with
  | nil => rfl
  | cons x L' ih =>
    have hxM : x ≠ M := fun h => hM (h ▸ List.mem_cons_self x L')
    have hx : monthStart x = x := hms x (List.mem_cons_self x L')
    have hM' : M ∉ L' := fun h => hM (List.mem_cons_of_mem x h)
    have ih' := ih (fun y hy => hms y (List.mem_cons_of_mem x hy)) hM'
    simp only [List.filterMap_cons]
    cases hmax : ((high.filter fun b =>
        decide (inThreeMonthWindow (monthStart x) b.1)).map Prod.snd).max? with
    | none => simpa [hmax] using ih'
    | some v =>
      simp only [Option.map_some']
      rw [lookupKey, if_neg (by rw [hx]; exact hxM)]
      exact ih'

theorem lookupKey_bucket_map_eq (high : List (MDate × ℚ)) (L : List MDate)
    (hnd : L.Nodup) (hms : ∀ x ∈ L, monthStart x = x) (M : MDate) (hM : M ∈ L) :
    lookupKey
      (L.filterMap fun ms =>
        (((high.filter fun b => decide (inThreeMonthWindow (monthStart ms) b.1)).map
            Prod.snd).max?).map fun v => (monthStart ms, v)) M
    = ((high.filter fun b => decide (inThreeMonthWindow M b.1)).map Prod.snd).max? := by
  induction L with
  | nil => cases hM
  | cons x L' ih =>
    have hx : monthStart x = x := hms x (List.mem_cons_self x L')
    by_cases hxM : x = M
    · subst hxM
      simp only [List.filterMap_cons, hx]
      cases hmax : ((high.filter fun b =>
          decide (inThreeMonthWindow x b.1)).map Prod.snd).max? with
      | none =>
        have hnotmem : x ∉ L' := (List.nodup_cons.mp hnd).1
        simpa [hmax] using
          lookupKey_bucket_map_of_not_mem high L'
            (fun y hy => hms y (List.mem_cons_of_mem x hy)) x hnotmem
      | some v =>
        simp only [Option.map_some']
        rw [lookupKey, if_pos rfl]
    · have hM' : M ∈ L' := by
        rcases List.mem_cons.mp hM with h | h
        · exact absurd h.symm hxM
        · exact h
      have ih' := ih (List.nodup_cons.mp hnd).2
        (fun y hy => hms y (List.mem_cons_of_mem x hy)) hM'
      simp only [List.filterMap_cons]
      cases hmax : ((high.filter fun b =>
          decide (inThreeMonthWindow (monthStart x) b.1)).map Prod.snd).max? with
      | none => simpa [hmax] using ih'
      | some v =>
        simp only [Option.map_some']
        rw [lookupKey, if_neg (by rw [hx]; exact hxM)]
        exact ih'

theorem lookup_threeMonthHigh_eq (high : List (MDate × ℚ)) (M : MDate)
    (hM : M ∈ monthStartsOf high) :
    lookupKey (threeMonthHighByMonthStart high) M
    = ((high.filter fun b => decide (inThreeMonthWindow M b.1)).map Prod.snd).max? := by
  exact lookupKey_bucket_map_eq high (monthStartsOf high) (List.nodup_dedup _)
    (fun x hx => monthStart_mem_monthStartsOf hx) M hM

/-- C1: for every high series, the 3-month rolling reference of a
month-start bucket `M` of the series is the maximum of `high` over exactly
the bars with timestamp in `[M - 3 months, M)`: any value it yields is
attained by an in-window bar and bounds every in-window bar from above; a
bucket whose window holds no bar gets no reference (`none`, the NaN
propagated downstream); and a bar outside the window — later than or equal
to `M` (look-ahead) or earlier than `M - 3 months` — never contributes:
adding such a bar leaves the bucket's reference unchanged. -/
theorem three_month_high_window_spec :
    ∀ (high : List (MDate × ℚ)) (M : MDate), M ∈ monthStartsOf high →
    (∀ v : ℚ, lookupKey (threeMonthHighByMonthStart high) M = some v →
        (∃ b ∈ high, inThreeMonthWindow M b.1 ∧ b.2 = v)
        ∧ ∀ b ∈ high, inThreeMonthWindow M b.1 → b.2 ≤ v)
    ∧ ((∀ b ∈ high, ¬ inThreeMonthWindow M b.1) →
        lookupKey (threeMonthHighByMonthStart high) M = none)
    ∧ (∀ bar : MDate × ℚ, ¬ inThreeMonthWindow M bar.1 →
        lookupKey (threeMonthHighByMonthStart (high ++ [bar])) M
          = lookupKey (threeMonthHighByMonthStart high) M) := by
  intro high M hM
  have heq := lookup_threeMonthHigh_eq high M hM
  refine ⟨?_, ?_, ?_⟩
  · intro v hv
    rw [heq] at hv
    have anti : Std.Antisymm ((· : ℚ) ≤ ·) := ⟨fun h1 h2 => le_antisymm h1 h2⟩
    rw [List.max?_eq_some_iff (fun a => le_refl a) (fun a b => max_choice a b)
      (fun _ _ _ => max_le_iff)] at hv
    obtain ⟨hmem, hub⟩ := hv
    constructor
    · rcases List.mem_map.mp hmem with ⟨b, hbf, rfl⟩
      rcases List.mem_filter.mp hbf with ⟨hbh, hbw⟩
      exact ⟨b, hbh, of_decide_eq_true hbw, rfl⟩
    · intro b hb hbw
      exact hub b.2 (List.mem_map.mpr ⟨b, List.mem_filter.mpr ⟨hb, decide_eq_true hbw⟩, rfl⟩)
  · intro hall
    rw [heq]
    have hfil : (high.filter fun b => decide (inThreeMonthWindow M b.1)) = [] := by
      rw [List.filter_eq_nil_iff]
      intro b hb
      simpa using hall b hb
    rw [hfil]
    rfl
  · intro bar hbar
    have hM2 : M ∈ monthStartsOf (high ++ [bar]) := by
      unfold monthStartsOf at *
      rw [List.map_append]
      exact List.mem_dedup.mpr (List.mem_append_left _ (List.mem_dedup.mp hM))
    rw [lookup_threeMonthHigh_eq _ M hM2, heq, List.filter_append]
    simp [hbar]

/-- Concrete instance of `three_month_high_window_spec`: for the bucket of
month 26 over a three-bar series, appending a bar of that very month
(timestamp not before the bucket start, hence outside `[M - 3m, M)`)
leaves the bucket's 3-month-high reference unchanged. -/
theorem three_month_high_window_witness :
    lookupKey (threeMonthHighByMonthStart
        ([(⟨24, 5⟩, 10), (⟨25, 3⟩, 12), (⟨26, 1⟩, 9)] ++ [(⟨26, 2⟩, 99)])) ⟨26, 1⟩
      = lookupKey (threeMonthHighByMonthStart
        [(⟨24, 5⟩, 10), (⟨25, 3⟩, 12), (⟨26, 1⟩, 9)]) ⟨26, 1⟩ :=
  (three_month_high_window_spec [(⟨24, 5⟩, 10), (⟨25, 3⟩, 12), (⟨26, 1⟩, 9)] ⟨26, 1⟩
    (by decide)).2.2 (⟨26, 2⟩, 99) (by decide)

/-! ## New-high breadth (`app._breadth_window_bars`,
`app._compute_breadth_new_high_low`) -/

/-- Python `str.strip()` over the ASCII labels involved (the standard
library's `String.trim` does not reduce in the kernel, so the model works
on the character list). -/
def stripStr (s : String) : String :=
  String.mk (((s.data.dropWhile (·.isWhitespace)).reverse.dropWhile (·.isWhitespace)).reverse)

/-- Python `str.lower()` over the ASCII labels involved. -/
def lowerStr (s : String) : String :=
  String.mk (s.data.map Char.toLower)

/-- Embedding of `app._breadth_window_bars`:
`52 if (tf_label or "").strip().lower() == "weekly" else 252`. -/
def breadth_window_bars (tf_label : String) : ℕ :=
  if lowerStr (stripStr tf_label) = "weekly" then 52 else 252

/-- The `prev_max` series of `app._compute_breadth_new_high_low`:
`high.rolling(window_bars, min_periods=window_bars).max().shift(1)` read at
position `i` — the max over the `window_bars` bars at positions
`[i - w, i - 1]`, defined (`some`) only once a full window of prior bars
exists. -/
def rollingPrevMax (v : List ℚ) (w i : ℕ) : Option ℚ :=
  if w ≤ i then ((v.take i).drop (i - w)).max? else none

/-- The per-symbol `new_high` flag series:
`(high > prev_max).where(prev_max.notna())` — `none` models the NaN kept by
`.where` over the warm-up rows, `some` the 1.0/0.0 of the comparison. -/
def newHighFlags (high : List ℚ) (w : ℕ) : List (Option Bool) :=
  (List.range high.length).map fun i =>
    (rollingPrevMax high w i).map fun m => decide (m < high.getD i 0)

/-- One date's `new_high_count`: `df_high.sum(axis=1, skipna=True)` across
the per-symbol flags of that date — the number of `some true`s. -/
def newHighCountRow (flags : List (Option Bool)) : ℕ :=
  flags.countP fun f => f = some true

/-- One date's denominator: `df_high.notna().sum(axis=1)` — the number of
non-NaN flags of that date. -/
def newHighDenomRow (flags : List (Option Bool)) : ℕ :=
  flags.countP fun f => f.isSome

/-- C7: the per-symbol new-high flag at position `i` is unknown (`none`,
excluded from the denominator and never conflated with false) exactly when
fewer than `window` prior bars exist; with a full window it is
`some true` iff `high[i]` exceeds the max of the `window` prior bars and
`some false` iff that well-defined max is not exceeded; the window is 252
bars for the Daily timeframe and 52 for Weekly; and in the cross-sectional
count an unknown flag changes neither numerator nor denominator while a
false flag enters only the denominator. -/
theorem breadth_new_high_spec :
    ∀ (high : List ℚ) (w i : ℕ) (flags : List (Option Bool)),
    (i < high.length → i < w → (newHighFlags high w).getD i none = none)
    ∧ (1 ≤ w → i < high.length → w ≤ i →
        ∃ m : ℚ, ((high.take i).drop (i - w)).max? = some m
          ∧ ((newHighFlags high w).getD i none = some true ↔ m < high.getD i 0)
          ∧ ((newHighFlags high w).getD i none = some false ↔ high.getD i 0 ≤ m))
    ∧ breadth_window_bars "Daily" = 252
    ∧ breadth_window_bars "Weekly" = 52
    ∧ newHighCountRow (flags ++ [none]) = newHighCountRow flags
    ∧ newHighDenomRow (flags ++ [none]) = newHighDenomRow flags
    ∧ newHighCountRow (flags ++ [some false]) = newHighCountRow flags
    ∧ newHighDenomRow (flags ++ [some false]) = newHighDenomRow flags + 1 := by
  intro high w i flags
  refine ⟨?_, ?_, by decide, by decide, ?_, ?_, ?_, ?_⟩
  · intro hi hw
    simp [newHighFlags, List.getD_eq_getElem?_getD, List.getElem?_map, List.getElem?_range,
      hi, rollingPrevMax, not_le.mpr hw]
  · intro hw1 hi hwi
    have hlen : ((high.take i).drop (i - w)).length = w := by
      rw [List.length_drop, List.length_take, min_eq_left (le_of_lt hi)]
      omega
    cases hmax : ((high.take i).drop (i - w)).max? with
    | none =>
      exfalso
      have := List.max?_eq_none_iff.mp hmax
      rw [this] at hlen
      simp at hlen
      omega
    | some m =>
      have hflag : (newHighFlags high w).getD i none
          = some (decide (m < high.getD i 0)) := by
        simp [newHighFlags, List.getD_eq_getElem?_getD, List.getElem?_map,
          List.getElem?_range, hi, rollingPrevMax, hwi, hmax]
      refine ⟨m, rfl, ?_, ?_⟩
      · rw [hflag]
        simp
      · rw [hflag]
        simp [not_lt, decide_eq_false_iff_not]
  · simp [newHighCountRow, List.countP_append]
  · simp [newHighDenomRow, List.countP_append]
  · simp [newHighCountRow, List.countP_append]
  · simp [newHighDenomRow, List.countP_append, List.countP_cons]

/-! ## Trailing volume averages
(`stock_volume_alert/volume_alert/metrics.compute_volume_averages`) -/

/-- Insertion step of the timestamp sort. -/
def insertByTs (x : ℤ × ℚ) : List (ℤ × ℚ) → List (ℤ × ℚ)
  | [] => [x]
  | y :: rest => if x.1 < y.1 then x :: y :: rest else y :: insertByTs x rest

/-- `df.sort_index()`: sort the bars by timestamp (insertion sort; the
source's sort algorithm is unspecified and nothing downstream depends on
the order of equal timestamps). -/
def sortByTs : List (ℤ × ℚ) → List (ℤ × ℚ)
  | [] => []
  | x :: rest => insertByTs x (sortByTs rest)

/-- Embedding of `metrics.VolumeAverages`. -/
structure VolumeAverages where
  asof_ts : ℤ
  avg5 : Option ℚ
  avg10 : Option ℚ
  avg20 : Option ℚ
  avg50 : Option ℚ
deriving DecidableEq, Repr

/-- The source's `avg(n)`: `None` when fewer than `n` bars are available,
else the plain mean of the last `n` (`v[-n:]`).  `_mean_or_none`'s NaN
filter is vacuous here: the NaN volumes were already dropped. -/
def trailingAvg (v : List ℚ) (n : ℕ) : Option ℚ :=
  if v.length < n then none else some ((v.drop (v.length - n)).sum / n)

/-- Embedding of `metrics.compute_volume_averages` on the volume column
(`none` entries are the NaN volumes dropped by `dropna(subset=["volume"])`;
a frame with no volume column at all returns `None` upstream and is not
representable here).  The latest bar is excluded as the in-progress one
whenever at least two bars exist; `as-of` is the timestamp of the last bar
kept. -/
def compute_volume_averages (df : List (ℤ × Option ℚ)) : Option VolumeAverages :=
  let l := sortByTs (df.filterMap fun b => b.2.map fun v => (b.1, v))
  if l = [] then none
  else
    let hist := if 2 ≤ l.length then l.dropLast else l
    let v := hist.map Prod.snd
    some
      { asof_ts := (hist.getLast?.map Prod.fst).getD 0
        avg5 := trailingAvg v 5
        avg10 := trailingAvg v 10
        avg20 := trailingAvg v 20
        avg50 := trailingAvg v 50 }

theorem hist_trailingAvg_eq (l : List (ℤ × ℚ)) (hne : l ≠ []) (n : ℕ) (hn : 2 ≤ n) :
    trailingAvg ((if 2 ≤ l.length then l.dropLast else l).map Prod.snd) n
      = trailingAvg (l.dropLast.map Prod.snd) n := by
  by_cases h2 : 2 ≤ l.length
  · rw [if_pos h2]
  · rw [if_neg h2]
    have hpos : 0 < l.length := List.length_pos.mpr hne
    have h1 : l.length = 1 := by omega
    have hd : l.dropLast = [] := by
      have : l.dropLast.length = 0 := by rw [List.length_dropLast, h1]
      exact List.eq_nil_of_length_eq_zero this
    have hlt : (l.map Prod.snd).length < n := by
      rw [List.length_map, h1]
      omega
    rw [hd]
    unfold trailingAvg
    rw [if_pos hlt, if_pos (show (([] : List (ℤ × ℚ)).map Prod.snd).length < n by simp; omega)]

/-- C8: on every nonempty daily volume table the engine yields a result
whose `avg_n`, for each `n ∈ {5, 10, 20, 50}`, is computed over the bars
strictly before the current (last, possibly incomplete) bar: the simple
mean of the last `n` such prior bars when at least `n` of them exist, and
unknown (`none`) otherwise — also when the table holds a single bar, which
is then the current bar itself. -/
theorem volume_averages_spec :
    ∀ df : List (ℤ × Option ℚ),
    sortByTs (df.filterMap fun b => b.2.map fun v => (b.1, v)) ≠ [] →
    ∃ va : VolumeAverages, compute_volume_averages df = some va
      ∧ va.avg5 = trailingAvg
          ((sortByTs (df.filterMap fun b => b.2.map fun v => (b.1, v))).dropLast.map Prod.snd) 5
      ∧ va.avg10 = trailingAvg
          ((sortByTs (df.filterMap fun b => b.2.map fun v => (b.1, v))).dropLast.map Prod.snd) 10
      ∧ va.avg20 = trailingAvg
          ((sortByTs (df.filterMap fun b => b.2.map fun v => (b.1, v))).dropLast.map Prod.snd) 20
      ∧ va.avg50 = trailingAvg
          ((sortByTs (df.filterMap fun b => b.2.map fun v => (b.1, v))).dropLast.map Prod.snd) 50 := by
  intro df hne
  simp only [compute_volume_averages, if_neg hne]
  refine ⟨_, rfl, ?_, ?_, ?_, ?_⟩ <;>
    exact hist_trailingAvg_eq _ hne _ (by norm_num)

/-- Concrete instance of `volume_averages_spec`: a six-bar table (one bar
with NaN volume) has five clean prior bars once the current bar is
excluded, so `avg5` is their mean and `avg10` is unknown. -/
theorem volume_averages_witness :
    ∃ va : VolumeAverages,
      compute_volume_averages
        [(1, some 10), (2, some 20), (3, none), (4, some 30), (5, some 40),
          (6, some 50), (7, some 60)] = some va
      ∧ va.avg5 = trailingAvg
          ((sortByTs ([(1, some 10), (2, some 20), (3, none), (4, some 30), (5, some 40),
            (6, some 50), (7, some 60)].filterMap fun b =>
              b.2.map fun v => (b.1, v))).dropLast.map Prod.snd) 5
      ∧ va.avg10 = trailingAvg
          ((sortByTs ([(1, some 10), (2, some 20), (3, none), (4, some 30), (5, some 40),
            (6, some 50), (7, some 60)].filterMap fun b =>
              b.2.map fun v => (b.1, v))).dropLast.map Prod.snd) 10
      ∧ va.avg20 = trailingAvg
          ((sortByTs ([(1, some 10), (2, some 20), (3, none), (4, some 30), (5, some 40),
            (6, some 50), (7, some 60)].filterMap fun b =>
              b.2.map fun v => (b.1, v))).dropLast.map Prod.snd) 20
      ∧ va.avg50 = trailingAvg
          ((sortByTs ([(1, some 10), (2, some 20), (3, none), (4, some 30), (5, some 40),
            (6, some 50), (7, some 60)].filterMap fun b =>
              b.2.map fun v => (b.1, v))).dropLast.map Prod.snd) 50 :=
  volume_averages_spec
    [(1, some 10), (2, some 20), (3, none), (4, some 30), (5, some 40),
      (6, some 50), (7, some 60)] (by decide)

/-! ## Symbol History rows and the shared model post-processing
(`rrg_calc.compute_rrg_for_symbol` and the block repeated in all four
models) -/

/-- One row of a Symbol History.  `speed_sq` and `distance_sq` carry the
squares of the source's `speed = sqrt(d_rs_ratio^2 + d_rs_mom^2)` and
`distance = sqrt((rs_ratio-100)^2 + (rs_mom-100)^2)` (the square root
leaves `ℚ` and is strictly monotone on nonnegatives); `angle_deg` (an
`atan2`) is omitted — no verified claim concerns it.  An `Option` `none`
is a NaN entry of the frame. -/
structure RRGRow (τ : Type) where
  ts : τ
  rs_ratio : ℚ
  rs_mom : ℚ
  d_rs_ratio : Option ℚ
  d_rs_mom : Option ℚ
  speed_sq : Option ℚ
  quadrant : Quadrant
  distance_sq : ℚ
deriving DecidableEq, Repr

/-- The post-processing block that the source repeats verbatim in each of
the four models (`rrg_calc.py` lines 48-64, 191-207, 258-274 and 325-341):
given the frame of `(date, rs_ratio, rs_mom)` rows left after `dropna`,
compute `d_rs_ratio`/`d_rs_mom` by `.diff()` (pairing each row with its
predecessor, NaN — `none` — at the first row), `speed`, `quadrant` and
`distance`.  No row is dropped here: the frame keeps its length. -/
def rrgPostprocess {τ : Type} (l : List (τ × ℚ × ℚ)) : List (RRGRow τ) :=
  (l.zip (none :: l.map some)).map fun cp =>
    { ts := cp.1.1
      rs_ratio := cp.1.2.1
      rs_mom := cp.1.2.2
      d_rs_ratio := cp.2.map fun p => cp.1.2.1 - p.2.1
      d_rs_mom := cp.2.map fun p => cp.1.2.2 - p.2.2
      speed_sq :=
        match cp.2 with
        | none => none
        | some p =>
            some ((cp.1.2.1 - p.2.1) * (cp.1.2.1 - p.2.1)
              + (cp.1.2.2 - p.2.2) * (cp.1.2.2 - p.2.2))
      quadrant := RRGTDV.quadrant cp.1.2.1 cp.1.2.2
      distance_sq := (cp.1.2.1 - 100) * (cp.1.2.1 - 100)
        + (cp.1.2.2 - 100) * (cp.1.2.2 - 100) }

/-- Tail of the recursive exponential weighting
`y_t = alpha * x_t + (1 - alpha) * y_(t-1)`. -/
def ewmFrom (alpha prev : ℚ) : List ℚ → List ℚ
  | [] => []
  | x :: xs =>
      let e := alpha * x + (1 - alpha) * prev
      e :: ewmFrom alpha e xs

/-- pandas `series.ewm(span=s, adjust=False).mean()`: seeded from the
first value, recursive weighting with `alpha = 2 / (s + 1)`. -/
def ewm (alpha : ℚ) : List ℚ → List ℚ
  | [] => []
  | x :: xs => x :: ewmFrom alpha x xs

/-- Embedding of `rrg_calc.compute_rrg_for_symbol` (the EMA model).  The
two input series are index-aligned at every call site (`app.py` passes the
columns of the inner-joined, NaN-dropped `merged` frame), so the embedding
takes the aligned `(date, close_symbol, close_benchmark)` rows; the
source's pairwise series arithmetic is then positional.  The `dropna`
before the diff is vacuous on this data: over exact rationals no entry of
`rs`/`rs_ratio`/`rs_mom` is NaN (in floats a zero denominator would give
±inf, which `dropna` keeps as well). -/
def compute_rrg_for_symbol {τ : Type} (merged : List (τ × ℚ × ℚ))
    (ratio_len mom_len : ℤ) : List (RRGRow τ) :=
  let rs := merged.map fun b => 100 * (b.2.1 / b.2.2)
  let rs_ma := ewm (2 / ((ratio_len : ℚ) + 1)) rs
  let rs_ratio := (rs.zip rs_ma).map fun p => 100 * (p.1 / p.2)
  let ratio_ma := ewm (2 / ((mom_len : ℚ) + 1)) rs_ratio
  let rs_mom := (rs_ratio.zip ratio_ma).map fun p => 100 * (p.1 / p.2)
  rrgPostprocess ((merged.map Prod.fst).zip (rs_ratio.zip rs_mom))

theorem ewmFrom_length (alpha prev : ℚ) (l : List ℚ) :
    (ewmFrom alpha prev l).length = l.length := by
  induction l generalizing prev with
  | nil => rfl
  | cons x xs ih => simp [ewmFrom, ih]

theorem ewm_length (alpha : ℚ) (l : List ℚ) : (ewm alpha l).length = l.length := by
  cases l with
  | nil => rfl
  | cons x xs => simp [ewm, ewmFrom_length]

theorem rrgPostprocess_length {τ : Type} (l : List (τ × ℚ × ℚ)) :
    (rrgPostprocess l).length = l.length := by
  simp [rrgPostprocess]

/-- Row `i + 1` of the shared post-processing: its `speed_sq` is the
squared hypotenuse of the one-step differences of `rs_ratio` and `rs_mom`
against row `i`. -/
theorem rrgPostprocess_speed_succ {τ : Type} (l : List (τ × ℚ × ℚ)) (i : ℕ)
    (hi1 : i + 1 < (rrgPostprocess l).length) :
    ((rrgPostprocess l).get ⟨i + 1, hi1⟩).speed_sq
      = some
        ((((rrgPostprocess l).get ⟨i + 1, hi1⟩).rs_ratio
            - ((rrgPostprocess l).get ⟨i, Nat.lt_of_succ_lt hi1⟩).rs_ratio) ^ 2
          + (((rrgPostprocess l).get ⟨i + 1, hi1⟩).rs_mom
            - ((rrgPostprocess l).get ⟨i, Nat.lt_of_succ_lt hi1⟩).rs_mom) ^ 2) := by
  have hlen : (rrgPostprocess l).length = l.length := rrgPostprocess_length l
  have hi1' : i + 1 < l.length := hlen ▸ hi1
  have hi' : i < l.length := Nat.lt_of_succ_lt hi1'
  simp only [rrgPostprocess, List.get_eq_getElem, List.getElem_map, List.getElem_zip,
    List.getElem_cons_succ, List.getElem_cons_zero]
  ring_nf

/-- The first row of the shared post-processing has no speed
(`diff` yields NaN there). -/
theorem rrgPostprocess_speed_zero {τ : Type} (l : List (τ × ℚ × ℚ))
    (h0 : 0 < (rrgPostprocess l).length) :
    ((rrgPostprocess l).get ⟨0, h0⟩).speed_sq = none := by
  cases l with
  | nil => simp [rrgPostprocess] at h0
  | cons a t => rfl

/-- C3 counterexample: on a concrete three-bar aligned input the EMA model
returns a Symbol History of three rows — the same length as its input —
whose first row is still present with an undefined (`none`) speed.  The
claim says that first row is dropped from the output; it is not. -/
theorem rrg_speed_first_row_counterexample :
    (compute_rrg_for_symbol [((0 : ℤ), 1, 1), (1, 2, 1), (2, 3, 1)] 5 5).length = 3
    ∧ ((compute_rrg_for_symbol [((0 : ℤ), 1, 1), (1, 2, 1), (2, 3, 1)] 5 5).map
        fun r => r.speed_sq).head? = some none :=
  ⟨rfl, rfl⟩

/-- The speed law of one Symbol History: every row after the first carries
the squared hypotenuse of its one-step `rs_ratio`/`rs_mom` differences,
and the first row of the history — when there is one — has an undefined
(`none`) speed: the NaN-speed row is present in the output, not
dropped. -/
def SpeedLawful {τ : Type} (h : List (RRGRow τ)) : Prop :=
  (∀ (i : ℕ) (hi1 : i + 1 < h.length),
      (h.get ⟨i + 1, hi1⟩).speed_sq
        = some
          (((h.get ⟨i + 1, hi1⟩).rs_ratio
              - (h.get ⟨i, Nat.lt_of_succ_lt hi1⟩).rs_ratio) ^ 2
            + ((h.get ⟨i + 1, hi1⟩).rs_mom
              - (h.get ⟨i, Nat.lt_of_succ_lt hi1⟩).rs_mom) ^ 2))
  ∧ (∀ h0 : 0 < h.length, (h.get ⟨0, h0⟩).speed_sq = none)

theorem rrgPostprocess_speedLawful {τ : Type} (l : List (τ × ℚ × ℚ)) :
    SpeedLawful (rrgPostprocess l) :=
  ⟨rrgPostprocess_speed_succ l, rrgPostprocess_speed_zero l⟩

/-! ## The EMA-model bundle step (`app._compute_rrg_bundle`, EMA branch) -/

/-- Inner join of two aligned series:
`pd.concat({"sym": close, "bench": bench_close}, axis=1, join="inner").dropna()`.
`_align_close` has already made each index unique and sorted and the `ℚ`
values carry no NaN, so the join is the pairing of the common dates. -/
def innerJoin {κ : Type} [DecidableEq κ] (a b : List (κ × ℚ)) : List (κ × ℚ × ℚ) :=
  a.filterMap fun p => (lookupKey b p.1).map fun v => (p.1, p.2, v)

/-- Embedding of the per-symbol EMA branch of `app._compute_rrg_bundle`
(lines 703-764): reject an empty join and any symbol with fewer than 25
aligned bars with the non-fatal reason `Not enough aligned bars`;
otherwise clamp `ratio_len` and `mom_len` into
`[5, max(5, aligned_bars - 5)]` and run `compute_rrg_for_symbol` with the
clamped lengths (an empty result is rejected with the same reason). -/
def emaSymbolStep (merged : List (ℤ × ℚ × ℚ)) (ratio_len mom_len : ℤ) :
    Except String (List (RRGRow ℤ)) :=
  if merged = [] then .error "Not enough aligned bars"
  else if (merged.length : ℤ) < 25 then .error "Not enough aligned bars"
  else
    let max_span : ℤ := max 5 ((merged.length : ℤ) - 5)
    let ratio_eff := min (max 5 ratio_len) max_span
    let mom_eff := min (max 5 mom_len) max_span
    let rrg_df := compute_rrg_for_symbol merged ratio_eff mom_eff
    if rrg_df = [] then .error "Not enough aligned bars"
    else .ok rrg_df

/-- The loop of `app._compute_rrg_bundle` over the universe (EMA model):
one step per symbol, a rejected symbol adds its reason to the errors map
and the loop continues with the remaining symbols (the source's per-symbol
`try/except` is vacuous here: the step is total). -/
def emaBundle (bench_close : List (ℤ × ℚ)) (closes : List (String × List (ℤ × ℚ)))
    (ratio_len mom_len : ℤ) :
    List (String × List (RRGRow ℤ)) × List (String × String) :=
  match closes with
  | [] => ([], [])
  | (sym, close) :: rest =>
    let r := emaBundle bench_close rest ratio_len mom_len
    match emaSymbolStep (innerJoin close bench_close) ratio_len mom_len with
    | .ok df => ((sym, df) :: r.1, r.2)
    | .error e => (r.1, (sym, e) :: r.2)

/-- C4: a symbol whose aligned (inner-joined, NaN-dropped) bar count is
below 25 is rejected with exactly the reason `Not enough aligned bars`,
non-fatally — in the bundle loop it contributes no result row, adds that
reason to the errors map, and every other symbol is processed as if it
were absent; with at least 25 aligned bars both lengths are clamped into
`[5, max(5, aligned_bars - 5)]` before `compute_rrg_for_symbol` runs. -/
theorem ema_bundle_clamp_spec :
    ∀ (merged : List (ℤ × ℚ × ℚ)) (ratio_len mom_len : ℤ) (bench : List (ℤ × ℚ))
      (sym : String) (close : List (ℤ × ℚ)) (closes : List (String × List (ℤ × ℚ))),
    (merged.length < 25 →
        emaSymbolStep merged ratio_len mom_len = .error "Not enough aligned bars")
    ∧ (25 ≤ merged.length →
        ∃ ratio_eff mom_eff : ℤ,
          5 ≤ ratio_eff ∧ ratio_eff ≤ max 5 ((merged.length : ℤ) - 5)
          ∧ 5 ≤ mom_eff ∧ mom_eff ≤ max 5 ((merged.length : ℤ) - 5)
          ∧ emaSymbolStep merged ratio_len mom_len
            = if compute_rrg_for_symbol merged ratio_eff mom_eff = []
              then .error "Not enough aligned bars"
              else .ok (compute_rrg_for_symbol merged ratio_eff mom_eff))
    ∧ ((innerJoin close bench).length < 25 →
        (emaBundle bench ((sym, close) :: closes) ratio_len mom_len).1
            = (emaBundle bench closes ratio_len mom_len).1
          ∧ (sym, "Not enough aligned bars")
              ∈ (emaBundle bench ((sym, close) :: closes) ratio_len mom_len).2) := by
  intro merged ratio_len mom_len bench sym close closes
  have hstep : ∀ m : List (ℤ × ℚ × ℚ), m.length < 25 →
      emaSymbolStep m ratio_len mom_len = .error "Not enough aligned bars" := by
    intro m hm
    unfold emaSymbolStep
    by_cases hnil : m = []
    · rw [if_pos hnil]
    · rw [if_neg hnil, if_pos (by exact_mod_cast hm)]
  refine ⟨hstep merged, ?_, ?_⟩
  · intro h25
    refine ⟨min (max 5 ratio_len) (max 5 ((merged.length : ℤ) - 5)),
      min (max 5 mom_len) (max 5 ((merged.length : ℤ) - 5)),
      le_min (le_max_left _ _) (le_max_left _ _), min_le_right _ _,
      le_min (le_max_left _ _) (le_max_left _ _), min_le_right _ _, ?_⟩
    unfold emaSymbolStep
    rw [if_neg (List.ne_nil_of_length_pos (by omega)),
      if_neg (not_lt.mpr (by exact_mod_cast h25))]
  · intro hjoin
    have he := hstep (innerJoin close bench) hjoin
    exact ⟨by simp [emaBundle, he], by simp [emaBundle, he]⟩

/-! ## Week buckets, the 52-week references and the three window models
(`rrg_calc._week_start`, `_fifty_two_week_high_by_week_start`,
`_fifty_two_week_low_by_week_start`,
`compute_rrg_for_symbol_three_month_high`,
`compute_rrg_for_symbol_fifty_two_week_high`,
`compute_rrg_for_symbol_fifty_two_week_low`) -/

/-- Embedding of `rrg_calc._week_start`:
`ts - pd.Timedelta(days=ts.weekday())`, the Monday of the timestamp's
week.  Daily timestamps are day numbers with day 0 a Monday, so
`weekday = t % 7` (Python `%`, i.e. `Int.emod`, also for negatives). -/
def weekStart (t : ℤ) : ℤ :=
  t - t % 7

/-- Membership in the window `[ws - 52 weeks, ws)` of a week-start bucket:
`(index >= ws - pd.Timedelta(weeks=52)) & (index < ws)`, with 52 weeks =
364 days. -/
def inFiftyTwoWeekWindow (ws t : ℤ) : Prop :=
  ws - 364 ≤ t ∧ t < ws

instance (ws t : ℤ) : Decidable (inFiftyTwoWeekWindow ws t) := by
  unfold inFiftyTwoWeekWindow; infer_instance

/-- The week-start buckets present in a series:
`index.map(_week_start).unique()`. -/
def weekStartsOf (s : List (ℤ × ℚ)) : List ℤ :=
  (s.map fun b => weekStart b.1).dedup

/-- Embedding of `rrg_calc._fifty_two_week_high_by_week_start`: per
week-start bucket, the max of `high` over the previous 52 full weeks; an
empty window leaves the bucket without an entry. -/
def fiftyTwoWeekHighByWeekStart (high : List (ℤ × ℚ)) : List (ℤ × ℚ) :=
  (weekStartsOf high).filterMap fun ws =>
    (((high.filter fun b => decide (inFiftyTwoWeekWindow (weekStart ws) b.1)).map
        Prod.snd).max?).map fun v => (weekStart ws, v)

/-- Embedding of `rrg_calc._fifty_two_week_low_by_week_start`: as the high
map, with the min of `low`. -/
def fiftyTwoWeekLowByWeekStart (low : List (ℤ × ℚ)) : List (ℤ × ℚ) :=
  (weekStartsOf low).filterMap fun ws =>
    (((low.filter fun b => decide (inFiftyTwoWeekWindow (weekStart ws) b.1)).map
        Prod.snd).min?).map fun v => (weekStart ws, v)

/-- The body shared by the three window models once `mom_lookback` has
been clamped (the source repeats it verbatim in each model, lines 163-208,
229-275 and 296-342 of `rrg_calc.py`, abstracting only the bucket function
and the reference maps): inner-join the closes, look each date's bucket up
in the two reference maps, `strength = close / reference`,
`rs_ratio = 100 * strength_sym / strength_bench`,
`rs_mom = 100 * rs_ratio / rs_ratio.shift(m)` (a positional shift over the
joined frame), then `replace([inf, -inf], nan).dropna()` and the shared
post-processing.  A missing bucket is a NaN reference (`none`); a division
whose denominator is zero is folded into the dropped rows (in floats it
yields ±inf or NaN — zero prices and zero references, the only inputs
affected, are outside the data domain). -/
def windowModelCore {κ : Type} [DecidableEq κ] (bucketOf : κ → κ)
    (refSym refBench : List (κ × ℚ)) (close_symbol close_benchmark : List (κ × ℚ))
    (m : ℕ) : List (RRGRow κ) :=
  if refSym = [] ∨ refBench = [] then []
  else
    let merged := innerJoin close_symbol close_benchmark
    if merged = [] then []
    else
      let ratioOpt : List (Option ℚ) := merged.map fun (b : κ × ℚ × ℚ) =>
        match lookupKey refSym (bucketOf b.1), lookupKey refBench (bucketOf b.1) with
        | some sr, some br =>
            if sr = 0 ∨ br = 0 ∨ b.2.2 = 0 then none
            else some (100 * ((b.2.1 / sr) / (b.2.2 / br)))
        | _, _ => none
      let momOpt : List (Option ℚ) := (List.range merged.length).map fun i =>
        if m ≤ i then
          match ratioOpt.getD i none, ratioOpt.getD (i - m) none with
          | some x, some p => if p = 0 then none else some (100 * (x / p))
          | _, _ => none
        else none
      let kept := (merged.zip (ratioOpt.zip momOpt)).filterMap fun bp =>
        match bp.2.1, bp.2.2 with
        | some r, some mo => some (bp.1.1, r, mo)
        | _, _ => none
      rrgPostprocess kept

/-- Embedding of `rrg_calc.compute_rrg_for_symbol_three_month_high`:
`mom_lookback = max(1, int(mom_lookback))`, then the shared window-model
body over the month-start buckets and 3-month-high references. -/
def compute_rrg_for_symbol_three_month_high
    (close_symbol high_symbol close_benchmark high_benchmark : List (MDate × ℚ))
    (mom_lookback : ℤ) : List (RRGRow MDate) :=
  windowModelCore monthStart (threeMonthHighByMonthStart high_symbol)
    (threeMonthHighByMonthStart high_benchmark) close_symbol close_benchmark
    (max 1 mom_lookback).toNat

/-- Embedding of `rrg_calc.compute_rrg_for_symbol_fifty_two_week_high`:
`mom_lookback = max(1, int(mom_lookback))`, then the shared window-model
body over the week-start buckets and 52-week-high references. -/
def compute_rrg_for_symbol_fifty_two_week_high
    (close_symbol high_symbol close_benchmark high_benchmark : List (ℤ × ℚ))
    (mom_lookback : ℤ) : List (RRGRow ℤ) :=
  windowModelCore weekStart (fiftyTwoWeekHighByWeekStart high_symbol)
    (fiftyTwoWeekHighByWeekStart high_benchmark) close_symbol close_benchmark
    (max 1 mom_lookback).toNat

/-- Embedding of `rrg_calc.compute_rrg_for_symbol_fifty_two_week_low`:
`mom_lookback = max(1, int(mom_lookback))`, then the shared window-model
body over the week-start buckets and 52-week-low references. -/
def compute_rrg_for_symbol_fifty_two_week_low
    (close_symbol low_symbol close_benchmark low_benchmark : List (ℤ × ℚ))
    (mom_lookback : ℤ) : List (RRGRow ℤ) :=
  windowModelCore weekStart (fiftyTwoWeekLowByWeekStart low_symbol)
    (fiftyTwoWeekLowByWeekStart low_benchmark) close_symbol close_benchmark
    (max 1 mom_lookback).toNat

/-- Every output of the shared window-model body is a post-processed
frame (the empty result of the degenerate branches is `rrgPostprocess`
of the empty frame). -/
theorem windowModelCore_eq_postprocess {κ : Type} [DecidableEq κ] (bucketOf : κ → κ)
    (refSym refBench close_symbol close_benchmark : List (κ × ℚ)) (m : ℕ) :
    ∃ l : List (κ × ℚ × ℚ),
      windowModelCore bucketOf refSym refBench close_symbol close_benchmark m
        = rrgPostprocess l := by
  unfold windowModelCore
  split
  · exact ⟨[], rfl⟩
  · dsimp only
    split
    · exact ⟨[], rfl⟩
    · exact ⟨_, rfl⟩

/-- C3 amended: in every Symbol History produced by any of the four RRG
models, `speed` at each date equals `hypot` of the differences of
`rs_ratio` and `rs_mom` against the previous row of the history (stated
on squares), it is undefined (NaN/`none`) at the first row, and that
first row is retained in the output — every nonempty history begins with
an undefined-speed row — rather than dropped; for the EMA model the
output moreover keeps exactly one row per aligned input bar. -/
theorem rrg_speed_spec :
    ∀ {τ : Type} (merged : List (τ × ℚ × ℚ)) (ratio_len mom_len : ℤ)
      (cs hs cb hb : List (MDate × ℚ)) (cs2 hs2 cb2 hb2 cs3 ls3 cb3 lb3 : List (ℤ × ℚ))
      (k : ℤ),
    (compute_rrg_for_symbol merged ratio_len mom_len).length = merged.length
    ∧ SpeedLawful (compute_rrg_for_symbol merged ratio_len mom_len)
    ∧ SpeedLawful (compute_rrg_for_symbol_three_month_high cs hs cb hb k)
    ∧ SpeedLawful (compute_rrg_for_symbol_fifty_two_week_high cs2 hs2 cb2 hb2 k)
    ∧ SpeedLawful (compute_rrg_for_symbol_fifty_two_week_low cs3 ls3 cb3 lb3 k) := by
  intro τ merged ratio_len mom_len cs hs cb hb cs2 hs2 cb2 hb2 cs3 ls3 cb3 lb3 k
  refine ⟨?_, rrgPostprocess_speedLawful _, ?_, ?_, ?_⟩
  · simp only [compute_rrg_for_symbol, rrgPostprocess_length]
    simp [ewm_length]
  · obtain ⟨l, hl⟩ := windowModelCore_eq_postprocess monthStart
      (threeMonthHighByMonthStart hs) (threeMonthHighByMonthStart hb) cs cb
      (max 1 k).toNat
    have hl' : compute_rrg_for_symbol_three_month_high cs hs cb hb k = rrgPostprocess l := hl
    rw [hl']
    exact rrgPostprocess_speedLawful l
  · obtain ⟨l, hl⟩ := windowModelCore_eq_postprocess weekStart
      (fiftyTwoWeekHighByWeekStart hs2) (fiftyTwoWeekHighByWeekStart hb2) cs2 cb2
      (max 1 k).toNat
    have hl' : compute_rrg_for_symbol_fifty_two_week_high cs2 hs2 cb2 hb2 k
        = rrgPostprocess l := hl
    rw [hl']
    exact rrgPostprocess_speedLawful l
  · obtain ⟨l, hl⟩ := windowModelCore_eq_postprocess weekStart
      (fiftyTwoWeekLowByWeekStart ls3) (fiftyTwoWeekLowByWeekStart lb3) cs3 cb3
      (max 1 k).toNat
    have hl' : compute_rrg_for_symbol_fifty_two_week_low cs3 ls3 cb3 lb3 k
        = rrgPostprocess l := hl
    rw [hl']
    exact rrgPostprocess_speedLawful l

/-- C9: all three window models clamp `mom_lookback` to
`max(1, mom_lookback)` before use, so for every integer
`mom_lookback <= 1` — zero and negative values included — each model's
output equals its output with `mom_lookback = 1`: the rate-of-change shift
is never by fewer than one bar. -/
theorem window_models_clamp_mom_lookback :
    ∀ (cs hs cb hb : List (MDate × ℚ)) (cs2 hs2 cb2 hb2 cs3 ls3 cb3 lb3 : List (ℤ × ℚ))
      (k : ℤ), k ≤ 1 →
    compute_rrg_for_symbol_three_month_high cs hs cb hb k
        = compute_rrg_for_symbol_three_month_high cs hs cb hb 1
    ∧ compute_rrg_for_symbol_fifty_two_week_high cs2 hs2 cb2 hb2 k
        = compute_rrg_for_symbol_fifty_two_week_high cs2 hs2 cb2 hb2 1
    ∧ compute_rrg_for_symbol_fifty_two_week_low cs3 ls3 cb3 lb3 k
        = compute_rrg_for_symbol_fifty_two_week_low cs3 ls3 cb3 lb3 1 := by
  intro cs hs cb hb cs2 hs2 cb2 hb2 cs3 ls3 cb3 lb3 k hk
  have hmax : max 1 k = max 1 (1 : ℤ) := by
    rw [max_eq_left hk, max_self]
  refine ⟨?_, ?_, ?_⟩ <;>
    simp only [compute_rrg_for_symbol_three_month_high,
      compute_rrg_for_symbol_fifty_two_week_high,
      compute_rrg_for_symbol_fifty_two_week_low, hmax]

/-- Concrete instance of `window_models_clamp_mom_lookback`: with
`mom_lookback = 0` each window model computes exactly what it computes
with `mom_lookback = 1` on a small two-bar universe. -/
theorem window_models_clamp_mom_lookback_witness :
    compute_rrg_for_symbol_three_month_high
        [(⟨10, 5⟩, 5), (⟨11, 1⟩, 6)] [(⟨10, 5⟩, 7), (⟨11, 1⟩, 8)]
        [(⟨10, 5⟩, 4), (⟨11, 1⟩, 4)] [(⟨10, 5⟩, 9), (⟨11, 1⟩, 9)] 0
      = compute_rrg_for_symbol_three_month_high
        [(⟨10, 5⟩, 5), (⟨11, 1⟩, 6)] [(⟨10, 5⟩, 7), (⟨11, 1⟩, 8)]
        [(⟨10, 5⟩, 4), (⟨11, 1⟩, 4)] [(⟨10, 5⟩, 9), (⟨11, 1⟩, 9)] 1
    ∧ compute_rrg_for_symbol_fifty_two_week_high
        [(3, 5), (10, 6)] [(3, 7), (10, 8)] [(3, 4), (10, 4)] [(3, 9), (10, 9)] 0
      = compute_rrg_for_symbol_fifty_two_week_high
        [(3, 5), (10, 6)] [(3, 7), (10, 8)] [(3, 4), (10, 4)] [(3, 9), (10, 9)] 1
    ∧ compute_rrg_for_symbol_fifty_two_week_low
        [(3, 5), (10, 6)] [(3, 7), (10, 8)] [(3, 4), (10, 4)] [(3, 9), (10, 9)] 0
      = compute_rrg_for_symbol_fifty_two_week_low
        [(3, 5), (10, 6)] [(3, 7), (10, 8)] [(3, 4), (10, 4)] [(3, 9), (10, 9)] 1 :=
  window_models_clamp_mom_lookback
    [(⟨10, 5⟩, 5), (⟨11, 1⟩, 6)] [(⟨10, 5⟩, 7), (⟨11, 1⟩, 8)]
    [(⟨10, 5⟩, 4), (⟨11, 1⟩, 4)] [(⟨10, 5⟩, 9), (⟨11, 1⟩, 9)]
    [(3, 5), (10, 6)] [(3, 7), (10, 8)] [(3, 4), (10, 4)] [(3, 9), (10, 9)]
    [(3, 5), (10, 6)] [(3, 7), (10, 8)] [(3, 4), (10, 4)] [(3, 9), (10, 9)]
    0 (by decide)

/-! ## The per-symbol fetch with retry and fallback (`app._fetch_one`) -/

/-- Python `str.upper()` over the ASCII symbols involved. -/
def upperStr (s : String) : String :=
  String.mk (s.data.map Char.toUpper)

/-- Embedding of `app._UNAVAILABLE_TV_SYMBOLS` — empty in the source, so
the deny-list short-circuit is dead code there. -/
def unavailable_tv_symbols : List String := []

/-- Embedding of `app._SYMBOL_FALLBACKS`: the configured fallback aliases
tried, in order, after the canonical symbol. -/
def symbol_fallbacks (s : String) : List String :=
  if s = "SET:NOVO80" then ["SET:NOVOB80"]
  else if s = "SET:GOLDUS80" then ["SET:GOLDUS19"]
  else if s = "SET:NDX80" then ["SET:NDX01"]
  else if s = "SET:STAR80" then ["SET:ASML01"]
  else if s = "SET:CNTECH80" then ["SET:CNTECH01"]
  else []

/-- The retry test of `app._fetch_one`:
`any(k in err_text for k in ["timeout", "timed out", "tempor", "connection"])`
on the lowercased error message; `k in s` is the substring test (some tail
of `s` starts with `k`). -/
def retryableError (e : String) : Bool :=
  ["timeout", "timed out", "tempor", "connection"].any fun k =>
    ((lowerStr e).data).tails.any fun t => k.data.isPrefixOf t

/-- What one candidate's attempt loop (or the whole candidate loop)
produces: the fetched table on success, the message of the last call that
raised (`last_err`), the number of client calls made, and the log of
back-off sleeps (`time.sleep(0.7 * (attempt + 1))`) taken. -/
structure FetchStep (D : Type) where
  df : Option D
  lastErr : Option String
  calls : ℕ
  sleeps : List ℚ
deriving Repr

/-- Embedding of the inner `for attempt in range(retry_attempts)` loop of
`app._fetch_one` for one candidate symbol.  The client is the oracle
`env : candidate → attempt → Except error table`; `attempt` is the 0-based
Python loop index and `attemptsLeft` the remaining iterations (3 at
entry).  A raised error is retried — after sleeping `0.7 * (attempt + 1)`
seconds — only when attempts remain (`attempt < retry_attempts - 1`) and
the message is retryable; otherwise the loop breaks to the next
candidate. -/
def tryAttempts {D : Type} (env : String → ℕ → Except String D) (c : String)
    (attempt attemptsLeft : ℕ) : FetchStep D :=
  match attemptsLeft with
  | 0 => ⟨none, none, 0, []⟩
  | n + 1 =>
    match env c attempt with
    | .ok d => ⟨some d, none, 1, []⟩
    | .error e =>
      if n ≠ 0 ∧ retryableError e then
        let rest := tryAttempts env c (attempt + 1) n
        ⟨rest.df, rest.lastErr <|> some e, rest.calls + 1,
          (7 / 10 : ℚ) * ((attempt : ℚ) + 1) :: rest.sleeps⟩
      else ⟨none, some e, 1, []⟩

/-- Embedding of the outer `for candidate_symbol in candidates` loop of
`app._fetch_one`: first success writes the table to the cache under the
original symbol's key and stops; exhaustion keeps the message of the last
call that raised. -/
def fetchLoop {D : Type} (env : String → ℕ → Except String D) (fs : FileSys D)
    (cache_dir cache_key : String) (now : ℚ) (lastErr : Option String) :
    List String → FetchStep D × FileSys D
  | [] => (⟨none, lastErr, 0, []⟩, fs)
  | c :: rest =>
    let s := tryAttempts env c 0 3
    match s.df with
    | some d => (⟨some d, none, s.calls, s.sleeps⟩, set_df fs cache_dir cache_key d now)
    | none =>
      let r := fetchLoop env fs cache_dir cache_key now (s.lastErr <|> lastErr) rest
      (⟨r.1.df, r.1.lastErr, s.calls + r.1.calls, s.sleeps ++ r.1.sleeps⟩, r.2)

/-- What `app._fetch_one` returns (plus the observable effects): the tuple
`(symbol, df | None, error | None)`, the cache state afterwards, and the
calls/sleeps trace. -/
structure FetchOutcome (D : Type) where
  symbol : String
  df : Option D
  err : Option String
  fs : FileSys D
  calls : ℕ
  sleeps : List ℚ

/-- The cache key of `app._fetch_one`: `SYMBOL|RESOLUTION|BARS`. -/
def cacheKeyFor (sym resolution : String) (bars : ℤ) : String :=
  sym ++ "|" ++ resolution ++ "|" ++ toString bars

/-- Embedding of `app._fetch_one`: normalize the symbol
(`(symbol or "").strip().upper()`), short-circuit the (empty) deny-list,
consult the cache under `SYMBOL|RESOLUTION|BARS` unless `refresh`, and on
a miss run the candidate loop over the canonical symbol followed by its
configured fallbacks (dropping empty aliases and aliases equal to the
symbol); exhaustion returns `(symbol, None, last_err or "Unknown error")`. -/
def fetch_one {D : Type} (env : String → ℕ → Except String D) (fs : FileSys D)
    (cache_dir symbol resolution : String) (bars : ℤ) (ttl_seconds now : ℚ)
    (refresh : Bool) : FetchOutcome D :=
  let sym := upperStr (stripStr symbol)
  if sym ∈ unavailable_tv_symbols then
    ⟨sym, none, some "Symbol is unavailable on TradingView feed", fs, 0, []⟩
  else
    let cache_key := cacheKeyFor sym resolution bars
    match (if refresh then none else get_df fs cache_dir cache_key ttl_seconds now) with
    | some cached => ⟨sym, some cached, none, fs, 0, []⟩
    | none =>
      let candidates := sym :: (symbol_fallbacks sym).filter fun s => decide (s ≠ "" ∧ s ≠ sym)
      let r := fetchLoop env fs cache_dir cache_key now none candidates
      match r.1.df with
      | some d => ⟨sym, some d, none, r.2, r.1.calls, r.1.sleeps⟩
      | none => ⟨sym, none, some (r.1.lastErr.getD "Unknown error"), r.2, r.1.calls, r.1.sleeps⟩


theorem tryAttempts_calls_le {D : Type} (env : String → ℕ → Except String D)
    (c : String) (a n : ℕ) : (tryAttempts env c a n).calls ≤ n := by
  induction n generalizing a with
  | zero => simp [tryAttempts]
  | succ n ih =>
    simp only [tryAttempts]
    split
    · simp
    · split
      · have := ih (a + 1)
        simp only
        omega
      · simp

theorem tryAttempts_fail_lastErr {D : Type} (env : String → ℕ → Except String D)
    (c : String) (a n : ℕ) (hn : 0 < n) (hdf : (tryAttempts env c a n).df = none) :
    ∃ e, (tryAttempts env c a n).lastErr = some e := by
  induction n generalizing a with
  | zero => cases hn
  | succ n ih =>
    simp only [tryAttempts] at hdf ⊢
    cases henv : env c a with
    | ok d => simp [henv] at hdf
    | error e =>
      simp only [henv] at hdf ⊢
      by_cases hn0 : n = 0
      · simp [hn0]
      · by_cases hre : retryableError e = true
        · rw [if_pos ⟨hn0, hre⟩] at hdf ⊢
          simp only at hdf ⊢
          rcases ih (a + 1) (Nat.pos_of_ne_zero hn0) hdf with ⟨e', he'⟩
          exact ⟨e', by simp [he']⟩
        · simp [hn0, hre]

theorem fetchLoop_calls_le {D : Type} (env : String → ℕ → Except String D)
    (fs : FileSys D) (cache_dir cache_key : String) (now : ℚ) (le0 : Option String)
    (cs : List String) :
    (fetchLoop env fs cache_dir cache_key now le0 cs).1.calls ≤ 3 * cs.length := by
  induction cs generalizing le0 with
  | nil => simp [fetchLoop]
  | cons c rest ih =>
    cases heq : (tryAttempts env c 0 3).df with
    | some d =>
      have h1 := tryAttempts_calls_le env c 0 3
      simp only [fetchLoop, heq, List.length_cons]
      omega
    | none =>
      have h1 := tryAttempts_calls_le env c 0 3
      have h2 := ih ((tryAttempts env c 0 3).lastErr <|> le0)
      simp only [fetchLoop, heq, List.length_cons]
      omega

theorem fetchLoop_success_cache {D : Type} (env : String → ℕ → Except String D)
    (fs : FileSys D) (cache_dir cache_key : String) (now : ℚ) (le0 : Option String)
    (cs : List String) (d : D)
    (hdf : (fetchLoop env fs cache_dir cache_key now le0 cs).1.df = some d) :
    (fetchLoop env fs cache_dir cache_key now le0 cs).2
      = set_df fs cache_dir cache_key d now := by
  induction cs generalizing le0 with
  | nil => simp [fetchLoop] at hdf
  | cons c rest ih =>
    cases heq : (tryAttempts env c 0 3).df with
    | some d' =>
      simp only [fetchLoop, heq] at hdf ⊢
      simp at hdf
      rw [hdf]
    | none =>
      simp only [fetchLoop, heq] at hdf ⊢
      exact ih _ hdf

theorem fetchLoop_fail_lastErr {D : Type} (env : String → ℕ → Except String D)
    (fs : FileSys D) (cache_dir cache_key : String) (now : ℚ)
    (cs : List String) (clast : String) (le0 : Option String)
    (hlast : (tryAttempts env clast 0 3).df = none)
    (hdf : (fetchLoop env fs cache_dir cache_key now le0 (cs ++ [clast])).1.df = none) :
    (fetchLoop env fs cache_dir cache_key now le0 (cs ++ [clast])).1.lastErr
      = (tryAttempts env clast 0 3).lastErr := by
  induction cs generalizing le0 with
  | nil =>
    simp only [List.nil_append] at hdf ⊢
    rcases tryAttempts_fail_lastErr env clast 0 3 (by omega) hlast with ⟨e, he⟩
    simp only [fetchLoop, hlast] at hdf ⊢
    simp [he]
  | cons c rest ih =>
    simp only [List.cons_append] at hdf ⊢
    cases heq : (tryAttempts env c 0 3).df with
    | some d' => simp only [fetchLoop, heq] at hdf; simp at hdf
    | none =>
      simp only [fetchLoop, heq] at hdf ⊢
      exact ih _ hdf

theorem fetch_one_miss_eq {D : Type} (env : String → ℕ → Except String D) (fs : FileSys D)
    (cache_dir symbol resolution : String) (bars : ℤ) (ttl now : ℚ) (refresh : Bool)
    (hmiss : refresh = true ∨
      get_df fs cache_dir (cacheKeyFor (upperStr (stripStr symbol)) resolution bars) ttl now
        = none) :
    fetch_one env fs cache_dir symbol resolution bars ttl now refresh
      = (let sym := upperStr (stripStr symbol)
         let key := cacheKeyFor sym resolution bars
         let r := fetchLoop env fs cache_dir key now none
           (sym :: (symbol_fallbacks sym).filter fun s => decide (s ≠ "" ∧ s ≠ sym))
         match r.1.df with
         | some d => ⟨sym, some d, none, r.2, r.1.calls, r.1.sleeps⟩
         | none =>
             ⟨sym, none, some (r.1.lastErr.getD "Unknown error"), r.2, r.1.calls,
               r.1.sleeps⟩) := by
  have hc : (if refresh then (none : Option D)
      else get_df fs cache_dir (cacheKeyFor (upperStr (stripStr symbol)) resolution bars)
        ttl now) = none := by
    rcases hmiss with h | h
    · subst h; rfl
    · cases refresh
      · simpa using h
      · rfl
  simp only [fetch_one, unavailable_tv_symbols]
  rw [if_neg (List.not_mem_nil _), hc]

/-- C5: on a cache miss (or forced refresh), `_fetch_one` runs its
candidate loop over the canonical symbol and then its configured fallback
aliases.  Per candidate, the attempt loop is exactly the 3-attempt state
machine given in the first conjunct: a retry happens only when the error
message contains a retryable keyword and attempts remain, with back-off
`0.7 * attempt-number` seconds (`[0.7]`, then `[0.7, 1.4]`); so at most 3
calls are made per candidate and at most `3 * (1 + fallbacks)` in total.
Whenever a table is returned, it was written to the cache under the
original symbol's key (a fresh read returns it) and the error is `None`;
when every candidate is exhausted the outcome is
`(symbol, None, last error message)`, the message being that of the last
failing candidate's attempt loop; and a candidate's success short-circuits
the loop, caching its table at once. -/
theorem fetch_retry_spec :
    ∀ (D : Type) (env : String → ℕ → Except String D) (fs : FileSys D)
      (cache_dir symbol resolution : String) (bars : ℤ) (ttl now : ℚ) (refresh : Bool),
    refresh = true ∨
      get_df fs cache_dir (cacheKeyFor (upperStr (stripStr symbol)) resolution bars) ttl now
        = none →
    (∀ c : String,
        tryAttempts env c 0 3
          = match env c 0 with
            | .ok d => ⟨some d, none, 1, []⟩
            | .error e1 =>
              if retryableError e1 then
                match env c 1 with
                | .ok d => ⟨some d, some e1, 2, [7/10]⟩
                | .error e2 =>
                  if retryableError e2 then
                    match env c 2 with
                    | .ok d => ⟨some d, some e2, 3, [7/10, 7/5]⟩
                    | .error e3 => ⟨none, some e3, 3, [7/10, 7/5]⟩
                  else ⟨none, some e2, 2, [7/10]⟩
              else ⟨none, some e1, 1, []⟩)
    ∧ (fetch_one env fs cache_dir symbol resolution bars ttl now refresh).calls
        ≤ 3 * (1 + ((symbol_fallbacks (upperStr (stripStr symbol))).filter fun s =>
            decide (s ≠ "" ∧ s ≠ upperStr (stripStr symbol))).length)
    ∧ (∀ d : D,
        (fetch_one env fs cache_dir symbol resolution bars ttl now refresh).df = some d →
        (fetch_one env fs cache_dir symbol resolution bars ttl now refresh).err = none
        ∧ ∀ ttl2 : ℚ, 0 ≤ ttl2 →
            get_df (fetch_one env fs cache_dir symbol resolution bars ttl now refresh).fs
              cache_dir (cacheKeyFor (upperStr (stripStr symbol)) resolution bars) ttl2 now
              = some d)
    ∧ ((fetch_one env fs cache_dir symbol resolution bars ttl now refresh).df = none →
        (fetch_one env fs cache_dir symbol resolution bars ttl now refresh).symbol
            = upperStr (stripStr symbol)
        ∧ ∃ e, (fetch_one env fs cache_dir symbol resolution bars ttl now refresh).err
            = some e)
    ∧ (∀ (cs : List String) (clast : String) (le0 : Option String),
        (tryAttempts env clast 0 3).df = none →
        (fetchLoop env fs cache_dir (cacheKeyFor (upperStr (stripStr symbol)) resolution bars)
            now le0 (cs ++ [clast])).1.df = none →
        (fetchLoop env fs cache_dir (cacheKeyFor (upperStr (stripStr symbol)) resolution bars)
            now le0 (cs ++ [clast])).1.lastErr = (tryAttempts env clast 0 3).lastErr)
    ∧ (∀ (c : String) (rest : List String) (le0 : Option String) (d : D),
        (tryAttempts env c 0 3).df = some d →
        fetchLoop env fs cache_dir (cacheKeyFor (upperStr (stripStr symbol)) resolution bars)
            now le0 (c :: rest)
          = (⟨some d, none, (tryAttempts env c 0 3).calls, (tryAttempts env c 0 3).sleeps⟩,
              set_df fs cache_dir (cacheKeyFor (upperStr (stripStr symbol)) resolution bars)
                d now)) := by
  intro D env fs cache_dir symbol resolution bars ttl now refresh hmiss
  have hbody := fetch_one_miss_eq env fs cache_dir symbol resolution bars ttl now refresh hmiss
  refine ⟨?_, ?_, ?_, ?_, ?_, ?_⟩
  · intro c
    cases h0 : env c 0 with
    | ok d => simp [tryAttempts, h0]
    | error e1 =>
      by_cases r1 : retryableError e1 = true
      · cases h1 : env c 1 with
        | ok d =>
          simp [tryAttempts, h0, h1, r1]
        | error e2 =>
          by_cases r2 : retryableError e2 = true
          · cases h2 : env c 2 with
            | ok d =>
              simp [tryAttempts, h0, h1, h2, r1, r2]
              norm_num
            | error e3 =>
              simp [tryAttempts, h0, h1, h2, r1, r2]
              norm_num
          · simp [tryAttempts, h0, h1, r1, r2]
      · simp [tryAttempts, h0, r1]
  · rw [hbody]
    cases hdf : (fetchLoop env fs cache_dir
        (cacheKeyFor (upperStr (stripStr symbol)) resolution bars) now none
        (upperStr (stripStr symbol) ::
          (symbol_fallbacks (upperStr (stripStr symbol))).filter fun s =>
            decide (s ≠ "" ∧ s ≠ upperStr (stripStr symbol)))).1.df with
    | some d =>
      have := fetchLoop_calls_le env fs cache_dir
        (cacheKeyFor (upperStr (stripStr symbol)) resolution bars) now none
        (upperStr (stripStr symbol) ::
          (symbol_fallbacks (upperStr (stripStr symbol))).filter fun s =>
            decide (s ≠ "" ∧ s ≠ upperStr (stripStr symbol)))
      simp only [hdf, List.length_cons] at this ⊢
      omega
    | none =>
      have := fetchLoop_calls_le env fs cache_dir
        (cacheKeyFor (upperStr (stripStr symbol)) resolution bars) now none
        (upperStr (stripStr symbol) ::
          (symbol_fallbacks (upperStr (stripStr symbol))).filter fun s =>
            decide (s ≠ "" ∧ s ≠ upperStr (stripStr symbol)))
      simp only [hdf, List.length_cons] at this ⊢
      omega
  · intro d hd
    rw [hbody] at hd ⊢
    cases hdf : (fetchLoop env fs cache_dir
        (cacheKeyFor (upperStr (stripStr symbol)) resolution bars) now none
        (upperStr (stripStr symbol) ::
          (symbol_fallbacks (upperStr (stripStr symbol))).filter fun s =>
            decide (s ≠ "" ∧ s ≠ upperStr (stripStr symbol)))).1.df with
    | some d' =>
      simp only [hdf] at hd ⊢
      simp at hd
      subst hd
      refine ⟨trivial, fun ttl2 httl2 => ?_⟩
      have hset := fetchLoop_success_cache env fs cache_dir
        (cacheKeyFor (upperStr (stripStr symbol)) resolution bars) now none
        (upperStr (stripStr symbol) ::
          (symbol_fallbacks (upperStr (stripStr symbol))).filter fun s =>
            decide (s ≠ "" ∧ s ≠ upperStr (stripStr symbol))) d' hdf
      simp only [hset]
      have h4 : ¬ ((0 : ℚ) > ttl2) := not_lt.mpr httl2
      simp [get_df, set_df, lookupFile, sub_self, h4]
    | none =>
      simp only [hdf] at hd
      simp at hd
  · intro hd
    rw [hbody] at hd ⊢
    cases hdf : (fetchLoop env fs cache_dir
        (cacheKeyFor (upperStr (stripStr symbol)) resolution bars) now none
        (upperStr (stripStr symbol) ::
          (symbol_fallbacks (upperStr (stripStr symbol))).filter fun s =>
            decide (s ≠ "" ∧ s ≠ upperStr (stripStr symbol)))).1.df with
    | some d' =>
      simp only [hdf] at hd
      simp at hd
    | none =>
      simp only [hdf]
      exact ⟨trivial, _, rfl⟩
  · intro cs clast le0 hlast hdf
    exact fetchLoop_fail_lastErr env fs cache_dir _ now cs clast le0 hlast hdf
  · intro c rest le0 d h
    simp only [fetchLoop, h]

/-- Concrete instance of `fetch_retry_spec`: with a forced refresh and a
client that always times out, fetching `SET:NDX80` makes at most
`3 * (1 + 1)` calls (three attempts for the canonical symbol and three for
its one configured fallback). -/
theorem fetch_retry_spec_witness :
    (fetch_one (fun (_ : String) (_ : ℕ) => (Except.error "timeout" : Except String ℚ))
        [] ".cache" "SET:NDX80" "D" 300 1 0 true).calls
      ≤ 3 * (1 + ((symbol_fallbacks (upperStr (stripStr "SET:NDX80"))).filter fun s =>
          decide (s ≠ "" ∧ s ≠ upperStr (stripStr "SET:NDX80"))).length) :=
  (fetch_retry_spec ℚ (fun _ _ => .error "timeout") [] ".cache" "SET:NDX80" "D" 300 1 0 true
    (Or.inl rfl)).2.1
